import Mathlib

/-!
Verification of the fuzzy track-matching core of plexify (package `plex`).

The Go code is shallowly embedded: Go strings are modelled as lists of
Unicode code points (`GoStr`), Go float64 arithmetic is modelled exactly by
rationals, and Go `len` (UTF-8 byte length) is modelled by `golen`.
`strings.ToLower` is modelled by a character map faithful on ASCII and
Latin-1 (the Unicode table beyond Latin-1 is not exercised by any statement
in this file).  Fallible constructs do not occur; every Go function in
scope is total.
-/

set_option maxHeartbeats 2000000
set_option maxRecDepth 20000

attribute [local semireducible] Rat.mul Rat.add Rat.sub Rat.inv

namespace Plexify

/-- A Go string, modelled as its sequence of Unicode code points. -/
abbrev GoStr := List Char

/-- Characters for which Go `unicode.IsSpace` returns true
(`strings.TrimSpace`, `strings.Fields` use this set). -/
def isUniSpace (c : Char) : Bool :=
  c = ' ' ∨ c = Char.ofNat 0x09 ∨ c = Char.ofNat 0x0A ∨ c = Char.ofNat 0x0B ∨
  c = Char.ofNat 0x0C ∨ c = Char.ofNat 0x0D ∨ c = Char.ofNat 0x85 ∨
  c = Char.ofNat 0xA0 ∨ c = Char.ofNat 0x1680 ∨
  (0x2000 ≤ c.toNat ∧ c.toNat ≤ 0x200A) ∨ c = Char.ofNat 0x2028 ∨
  c = Char.ofNat 0x2029 ∨ c = Char.ofNat 0x202F ∨ c = Char.ofNat 0x205F ∨
  c = Char.ofNat 0x3000

/-- Characters matched by the RE2 character class `\s` used in the
whitespace-collapsing regexes of the Go source: tab, newline, form feed,
carriage return and space. -/
def isRegexSpace (c : Char) : Bool :=
  c = ' ' ∨ c = Char.ofNat 0x09 ∨ c = Char.ofNat 0x0A ∨
  c = Char.ofNat 0x0C ∨ c = Char.ofNat 0x0D

/-- `strings.ToLower` on one code point, faithful on ASCII and on the
Latin-1 uppercase range (U+00C0..U+00DE except the multiplication sign). -/
def goToLowerChar (c : Char) : Char :=
  if 'A' ≤ c ∧ c ≤ 'Z' then Char.ofNat (c.toNat + 32)
  else if 0xC0 ≤ c.toNat ∧ c.toNat ≤ 0xDE ∧ c.toNat ≠ 0xD7 then
    Char.ofNat (c.toNat + 32)
  else c

/-- `strings.ToLower`. -/
def toLowerStr (s : GoStr) : GoStr := s.map goToLowerChar

/-- `strings.TrimSpace`: drop leading and trailing Unicode whitespace. -/
def trimSpace (s : GoStr) : GoStr :=
  ((s.dropWhile isUniSpace).reverse.dropWhile isUniSpace).reverse

/-- `strings.TrimSuffix(s, "-")`: drop one trailing dash if present. -/
def trimSuffixDash (s : GoStr) : GoStr :=
  if s.getLast? = some '-' then s.dropLast else s

/-- Worker for the regex replacement of runs of whitespace by one space
(pattern `\s+`, replacement a single space).  The flag records whether the
previous character belonged to a whitespace run. -/
def collapseAux : Bool → GoStr → GoStr
  | _, [] => []
  | b, c :: cs =>
    if isRegexSpace c then
      if b then collapseAux true cs else ' ' :: collapseAux true cs
    else c :: collapseAux false cs

/-- Replace every maximal run of regex whitespace by a single space. -/
def collapseWS (s : GoStr) : GoStr := collapseAux false s

/-- Worker for `strings.Fields`: split around runs of Unicode whitespace.
The accumulator holds the current field reversed. -/
def fieldsAux : GoStr → GoStr → List GoStr
  | [], cur => if cur = [] then [] else [cur.reverse]
  | c :: cs, cur =>
    if isUniSpace c then
      if cur = [] then fieldsAux cs [] else cur.reverse :: fieldsAux cs []
    else fieldsAux cs (c :: cur)

/-- `strings.Fields`. -/
def fields (s : GoStr) : List GoStr := fieldsAux s []

/-- Number of bytes of the UTF-8 encoding of one code point. -/
def utf8Bytes (c : Char) : Nat :=
  if c.toNat < 0x80 then 1
  else if c.toNat < 0x800 then 2
  else if c.toNat < 0x10000 then 3
  else 4

/-- Go `len` on a string: its UTF-8 byte length. -/
def golen (s : GoStr) : Nat := (s.map utf8Bytes).sum

/-- The source's helper `max(a, b int) int`. -/
def goMax (a b : Nat) : Nat := if a > b then a else b

/-- The source's helper `abs(x int) int`. -/
def goAbs (x : Int) : Int := if x < 0 then -x else x

/-- Rune index of the first occurrence of `pat` in `s` starting at `i`
(worker for `strings.Index`; byte and rune positions coincide wherever the
source slices, since the lowercasing map preserves per-character size and
the patterns searched for are ASCII). -/
def firstIndexOfAux (pat : GoStr) : GoStr → Nat → Option Nat
  | [], _ => none
  | l@(_ :: cs), i =>
    if pat.isPrefixOf l then some i else firstIndexOfAux pat cs (i + 1)

/-- `strings.Index` (for nonempty `pat`), as a rune index. -/
def firstIndexOf (pat s : GoStr) : Option Nat := firstIndexOfAux pat s 0

/-- Worker for `strings.LastIndex`: remembers the last prefix position. -/
def lastIndexOfAux (pat : GoStr) : GoStr → Nat → Option Nat → Option Nat
  | [], _, best => best
  | l@(_ :: cs), i, best =>
    lastIndexOfAux pat cs (i + 1) (if pat.isPrefixOf l then some i else best)

/-- `strings.LastIndex` (for nonempty `pat`), as a rune index. -/
def lastIndexOf (pat s : GoStr) : Option Nat := lastIndexOfAux pat s 0 none

/-- `strings.Split(s, " - ")` specialised to the three-character separator
used by `normalizeTitle`; leftmost separators are consumed first.  The
accumulator holds the current piece reversed. -/
def splitDash : GoStr → GoStr → List GoStr
  | [], cur => [cur.reverse]
  | ' ' :: '-' :: ' ' :: rest, cur => cur.reverse :: splitDash rest []
  | c :: cs, cur => splitDash cs (c :: cur)

/-- Worker for the regex replacements deleting one bracket family
(`\(...\)`, `\[...\]`, `\{...\}` with the closer excluded from the inner
class).  In mode `false` it scans for an opener; a match is possible only
when a closer follows, in which case mode `true` drops characters through
the next closer.  This is exactly leftmost-first `ReplaceAllString` with
the empty replacement. -/
def removeSpanAux (op cl : Char) : Bool → GoStr → GoStr
  | _, [] => []
  | false, c :: cs =>
    if c = op then
      if cl ∈ cs then removeSpanAux op cl true cs else c :: cs
    else c :: removeSpanAux op cl false cs
  | true, c :: cs =>
    if c = cl then removeSpanAux op cl false cs else removeSpanAux op cl true cs

/-- Delete every span from an opener to the next closer. -/
def removeSpans (op cl : Char) (s : GoStr) : GoStr := removeSpanAux op cl false s

/-- `removeBrackets`: delete parenthesised, square-bracketed and
curly-bracketed spans, trim, and collapse whitespace runs. -/
def removeBrackets (s : GoStr) : GoStr :=
  collapseWS (trimSpace
    (removeSpans (Char.ofNat 0x7B) (Char.ofNat 0x7D)
      (removeSpans '[' ']' (removeSpans '(' ')' s))))

/-- The "featuring" cut patterns, in the order the source checks them. -/
def featPatterns : List GoStr :=
  [" featuring ".toList, " feat. ".toList, " feat ".toList,
   " ft. ".toList, " ft ".toList]

/-- `removeFeaturing`: truncate at the last occurrence of the first
pattern found in the lowercased string, preserving original case. -/
def removeFeaturing (s : GoStr) : GoStr :=
  let lowerS := toLowerStr s
  match featPatterns.findSome? (fun pat => lastIndexOf pat lowerS) with
  | some i => trimSpace (s.take i)
  | none => s

/-- RE2 `\w` (ASCII word character), used for the `\b` boundaries. -/
def isWordChar (c : Char) : Bool :=
  ('0' ≤ c ∧ c ≤ '9') ∨ ('a' ≤ c ∧ c ≤ 'z') ∨ ('A' ≤ c ∧ c ≤ 'Z') ∨ c = '_'

/-- Whether `(?i)\bwith\b` matches the lowercased string `l` at rune
position `i`. -/
def matchesWithAt (l : GoStr) (i : Nat) : Bool :=
  decide ((l.drop i).take 4 = "with".toList) &&
  (decide (i = 0) ||
    (match l.get? (i - 1) with
     | some c => !isWordChar c
     | none => true)) &&
  (match l.get? (i + 4) with
   | some c => !isWordChar c
   | none => true)

/-- All match positions of `(?i)\bwith\b` in `l`, in increasing order. -/
def withMatchPositions (l : GoStr) : List Nat :=
  (List.range l.length).filter (fun i => matchesWithAt l i)

/-- `removeWith`: strip a leading "with " prefix, else truncate before the
last whole-word "with" that is not the final token, cleaning a trailing
dash. -/
def removeWith (s : GoStr) : GoStr :=
  let lowerS := toLowerStr s
  if ("with ".toList).isPrefixOf lowerS then
    trimSpace (trimSuffixDash (trimSpace (s.drop 5)))
  else
    match (withMatchPositions lowerS).getLast? with
    | some i =>
      if i + 4 < lowerS.length then
        trimSpace (trimSuffixDash (trimSpace (s.take i)))
      else s
    | none => s

/-- The fixed suffix list of `RemoveCommonSuffixes`, in source order. -/
def commonSuffixes : List GoStr := [
  " - bonus track".toList, " - remix".toList, " - extended".toList,
  " - radio edit".toList, " - single edit".toList, " - edit".toList,
  " - version".toList, " - live".toList, " - acoustic".toList,
  " - instrumental".toList, " - demo".toList, " - original mix".toList,
  " - club mix".toList, " - clean".toList, " - explicit".toList,
  " - bonus".toList, " - track".toList, " - remastered".toList,
  " - from the motion picture".toList, " - from the film".toList,
  " - from the movie".toList, " - from the soundtrack".toList,
  " - soundtrack version".toList, " - film version".toList,
  " - movie version".toList,
  " (bonus track)".toList, " (remix)".toList, " (extended)".toList,
  " (radio edit)".toList, " (single edit)".toList, " (edit)".toList,
  " (version)".toList, " (live)".toList, " (acoustic)".toList,
  " (instrumental)".toList, " (demo)".toList, " (original mix)".toList,
  " (club mix)".toList, " (clean)".toList, " (explicit)".toList,
  " (bonus)".toList, " (track)".toList, " (remastered)".toList,
  " (from the soundtrack)".toList, " (soundtrack version)".toList,
  " (film version)".toList, " (movie version)".toList]

/-- ASCII digit test (RE2 `\d`). -/
def isDigit (c : Char) : Bool := '0' ≤ c ∧ c ≤ '9'

/-- Match `\s+remastered\s*$` (case-insensitively) against all of `l`. -/
def matchSpacesRemEnd (l : GoStr) : Bool :=
  let l1 := l.dropWhile isRegexSpace
  decide (l1.length < l.length) &&
  ("remastered".toList).isPrefixOf (toLowerStr l1) &&
  decide ((l1.drop 10).dropWhile isRegexSpace = [])

/-- Match `(?i)\s*-\s*\d{4}\s+remastered\s*$` against all of `l`. -/
def matchYearDashAt (l : GoStr) : Bool :=
  match l.dropWhile isRegexSpace with
  | '-' :: l2 =>
    let l3 := l2.dropWhile isRegexSpace
    decide ((l3.take 4).length = 4) && (l3.take 4).all isDigit &&
    matchSpacesRemEnd (l3.drop 4)
  | _ => false

/-- Match `(?i)\s*\(\s*\d{4}\s+remastered\s*\)\s*$` against all of `l`. -/
def matchYearParenAt (l : GoStr) : Bool :=
  match l.dropWhile isRegexSpace with
  | '(' :: l2 =>
    let l3 := l2.dropWhile isRegexSpace
    decide ((l3.take 4).length = 4) && (l3.take 4).all isDigit &&
    (let l4 := l3.drop 4
     let l5 := l4.dropWhile isRegexSpace
     decide (l5.length < l4.length) &&
     ("remastered".toList).isPrefixOf (toLowerStr l5) &&
     (match (l5.drop 10).dropWhile isRegexSpace with
      | ')' :: l6 => l6.dropWhile isRegexSpace = []
      | _ => false))
  | _ => false

/-- Start position of the leftmost match of an end-anchored pattern
(`FindStringIndex` start component). -/
def findMatchStart (p : GoStr → Bool) (s : GoStr) : Option Nat :=
  (List.range (s.length + 1)).find? (fun i => p (s.drop i))

/-- The quoted soundtrack patterns searched by substring containment. -/
def soundtrackPatterns : List GoStr :=
  [" - from the motion picture".toList, " - from the film".toList,
   " - from the movie".toList, " - love theme from".toList,
   "(from the motion picture".toList, "(from the film".toList,
   "(from the movie".toList, "(love theme from".toList]

/-- `RemoveCommonSuffixes`: first matching fixed suffix wins; otherwise
the year-remastered regexes; otherwise the first soundtrack pattern found
at a positive index. -/
def RemoveCommonSuffixes (s : GoStr) : GoStr :=
  let lowerS := toLowerStr s
  match commonSuffixes.findSome?
      (fun suf => if suf.isSuffixOf lowerS then some suf.length else none) with
  | some k => trimSpace (trimSuffixDash (trimSpace (s.take (s.length - k))))
  | none =>
    match findMatchStart matchYearDashAt s with
    | some i => trimSpace (trimSuffixDash (trimSpace (s.take i)))
    | none =>
      match findMatchStart matchYearParenAt s with
      | some i => trimSpace (trimSuffixDash (trimSpace (s.take i)))
      | none =>
        match soundtrackPatterns.findSome? (fun pat =>
            match firstIndexOf pat lowerS with
            | some i => if 0 < i then some i else none
            | none => none) with
        | some i => trimSpace (trimSuffixDash (trimSpace (s.take i)))
        | none => s

/-- `normalizeTitle`: lowercase, rewrite every " - "-delimited segment
after the first as a parenthesised suffix, trim and collapse whitespace. -/
def normalizeTitle (s : GoStr) : GoStr :=
  let s1 := toLowerStr s
  let parts := splitDash s1 []
  let s2 := match parts with
    | p :: ps@(_ :: _) =>
      p ++ ps.flatMap (fun q => " (".toList ++ trimSpace q ++ ")".toList)
    | _ => s1
  collapseWS (trimSpace s2)

/-- One `strings.ReplaceAll` with single-character pattern and
replacement. -/
def replaceChar (a b : Char) (s : GoStr) : GoStr :=
  s.map (fun c => if c = a then b else c)

/-- The replacement pairs of `normalizePunctuation`, in source order
(hyphen variants, multiplication sign, apostrophe variants, double-quote
variants, and the repeated single-quote lines). -/
def punctRepl : List (Char × Char) :=
  [(Char.ofNat 0x2010, '-'), (Char.ofNat 0x2014, '-'), (Char.ofNat 0x2015, '-'),
   (Char.ofNat 0xD7, 'x'), (Char.ofNat 0x2019, '\''), (Char.ofNat 0x2018, '\''),
   (Char.ofNat 0x60, '\''), (Char.ofNat 0x2032, '\''), (Char.ofNat 0x201C, '\"'),
   (Char.ofNat 0x201D, '\"'), (Char.ofNat 0x2018, '\''), (Char.ofNat 0x2019, '\'')]

/-- `normalizePunctuation`: the sequential single-character
replacements. -/
def normalizePunctuation (s : GoStr) : GoStr :=
  punctRepl.foldl (fun t p => replaceChar p.1 p.2 t) s

/-- The fixed accent-folding table of `normalizeAccents` (all 224
entries of the source's `accentMap`). -/
def accentPairs : List (Char × Char) := [
  ('á','a'), ('à','a'), ('â','a'), ('ã','a'), ('ä','a'), ('å','a'),
  ('ā','a'), ('ă','a'), ('ą','a'), ('é','e'), ('è','e'), ('ê','e'),
  ('ë','e'), ('ē','e'), ('ĕ','e'), ('ė','e'), ('ę','e'), ('í','i'),
  ('ì','i'), ('î','i'), ('ï','i'), ('ī','i'), ('ĭ','i'), ('į','i'),
  ('ó','o'), ('ò','o'), ('ô','o'), ('õ','o'), ('ö','o'), ('ø','o'),
  ('ō','o'), ('ŏ','o'), ('ő','o'), ('ú','u'), ('ù','u'), ('û','u'),
  ('ü','u'), ('ū','u'), ('ŭ','u'), ('ů','u'), ('ű','u'), ('ý','y'),
  ('ÿ','y'), ('ŷ','y'), ('ñ','n'), ('ń','n'), ('ņ','n'), ('ň','n'),
  ('ç','c'), ('ć','c'), ('ĉ','c'), ('ċ','c'), ('č','c'), ('ś','s'),
  ('ŝ','s'), ('ş','s'), ('š','s'), ('ź','z'), ('ż','z'), ('ž','z'),
  ('ł','l'), ('ĺ','l'), ('ļ','l'), ('ľ','l'), ('ř','r'), ('ŕ','r'),
  ('ŗ','r'), ('ğ','g'), ('ģ','g'), ('ġ','g'), ('ḫ','h'), ('ĥ','h'),
  ('ħ','h'), ('ḏ','d'), ('ď','d'), ('đ','d'), ('ṯ','t'), ('ť','t'),
  ('ţ','t'), ('ḅ','b'), ('ḃ','b'), ('ṗ','p'), ('ṕ','p'), ('ḳ','k'),
  ('ḵ','k'), ('ḷ','l'), ('ḹ','l'), ('ṁ','m'), ('ṃ','m'), ('ṅ','n'),
  ('ṇ','n'), ('ṡ','s'), ('ṣ','s'), ('ṫ','t'), ('ṭ','t'), ('ṻ','u'),
  ('ṳ','u'), ('ṽ','v'), ('ṿ','v'), ('ẁ','w'), ('ẃ','w'), ('ẅ','w'),
  ('ẇ','w'), ('ẉ','w'), ('ẋ','x'), ('ẍ','x'), ('ỳ','y'), ('ỹ','y'),
  ('ỷ','y'), ('ẑ','z'), ('ẓ','z'), ('ẕ','z'), ('Á','A'), ('À','A'),
  ('Â','A'), ('Ã','A'), ('Ä','A'), ('Å','A'), ('Ā','A'), ('Ă','A'),
  ('Ą','A'), ('É','E'), ('È','E'), ('Ê','E'), ('Ë','E'), ('Ē','E'),
  ('Ĕ','E'), ('Ė','E'), ('Ę','E'), ('Í','I'), ('Ì','I'), ('Î','I'),
  ('Ï','I'), ('Ī','I'), ('Ĭ','I'), ('Į','I'), ('Ó','O'), ('Ò','O'),
  ('Ô','O'), ('Õ','O'), ('Ö','O'), ('Ø','O'), ('Ō','O'), ('Ŏ','O'),
  ('Ő','O'), ('Ú','U'), ('Ù','U'), ('Û','U'), ('Ü','U'), ('Ū','U'),
  ('Ŭ','U'), ('Ů','U'), ('Ű','U'), ('Ý','Y'), ('Ÿ','Y'), ('Ŷ','Y'),
  ('Ñ','N'), ('Ń','N'), ('Ņ','N'), ('Ň','N'), ('Ç','C'), ('Ć','C'),
  ('Ĉ','C'), ('Ċ','C'), ('Č','C'), ('Ś','S'), ('Ŝ','S'), ('Ş','S'),
  ('Š','S'), ('Ź','Z'), ('Ż','Z'), ('Ž','Z'), ('Ł','L'), ('Ĺ','L'),
  ('Ļ','L'), ('Ľ','L'), ('Ř','R'), ('Ŕ','R'), ('Ŗ','R'), ('Ğ','G'),
  ('Ģ','G'), ('Ġ','G'), ('Ḫ','H'), ('Ĥ','H'), ('Ħ','H'), ('Ḏ','D'),
  ('Ď','D'), ('Đ','D'), ('Ṯ','T'), ('Ť','T'), ('Ţ','T'), ('Ḅ','B'),
  ('Ḃ','B'), ('Ṗ','P'), ('Ṕ','P'), ('Ḳ','K'), ('Ḵ','K'), ('Ḷ','L'),
  ('Ḹ','L'), ('Ṁ','M'), ('Ṃ','M'), ('Ṅ','N'), ('Ṇ','N'), ('Ṡ','S'),
  ('Ṣ','S'), ('Ṫ','T'), ('Ṭ','T'), ('Ṻ','U'), ('Ṳ','U'), ('Ṽ','V'),
  ('Ṿ','V'), ('Ẁ','W'), ('Ẃ','W'), ('Ẅ','W'), ('Ẇ','W'), ('Ẉ','W'),
  ('Ẋ','X'), ('Ẍ','X'), ('Ỳ','Y'), ('Ỹ','Y'), ('Ỷ','Y'), ('Ẑ','Z'),
  ('Ẓ','Z'), ('Ẕ','Z')]

/-- One character folded through the accent table (`accentMap[r]` with
the unmapped default). -/
def accentChar (c : Char) : Char := (accentPairs.lookup c).getD c

/-- `normalizeAccents`: fold each character through the table, leaving
unmapped characters unchanged. -/
def normalizeAccents (s : GoStr) : GoStr := s.map accentChar

/-- The nested counting loop of `calculateStringSimilarity`: each word of
the first list is counted once if it equals some word of the second list
(the inner loop breaks at the first equal word; the second list is never
consumed). -/
def countMatchingWords : List GoStr → List GoStr → Nat
  | [], _ => 0
  | w :: ws, words2 =>
    (if w ∈ words2 then 1 else 0) + countMatchingWords ws words2

/-- `calculateStringSimilarity`: exact equality, then empties, then
substring containment (ratio of byte lengths), then the word-overlap and
length heuristic weighted 0.7 / 0.3. -/
def calculateStringSimilarity (s1 s2 : GoStr) : ℚ :=
  if s1 = s2 then 1
  else if s1 = [] ∨ s2 = [] then 0
  else if s2 <:+: s1 ∨ s1 <:+: s2 then
    let longer := if golen s2 > golen s1 then s2 else s1
    let shorter := if golen s2 > golen s1 then s1 else s2
    (golen shorter : ℚ) / (golen longer : ℚ)
  else
    let words1 := fields s1
    let words2 := fields s2
    if words1 = [] ∨ words2 = [] then 0
    else
      let wordSimilarity : ℚ :=
        (countMatchingWords words1 words2 : ℚ) /
          (goMax words1.length words2.length : ℚ)
      let lengthSimilarity : ℚ :=
        1 - (goAbs ((golen s1 : ℤ) - (golen s2 : ℤ)) : ℚ) /
          (goMax (golen s1) (golen s2) : ℚ)
      wordSimilarity * (7 / 10) + lengthSimilarity * (3 / 10)

/-- `spotify.Song` (the fields the matcher reads plus the rest of the
record). -/
structure Song where
  ID : GoStr
  Name : GoStr
  Artist : GoStr
  Album : GoStr
  Duration : Int
  URI : GoStr
  ISRC : GoStr
  MusicBrainzID : GoStr
  deriving DecidableEq, Repr

/-- `plex.PlexTrack`. -/
structure PlexTrack where
  ID : GoStr
  Title : GoStr
  Artist : GoStr
  Album : GoStr
  Duration : Int
  AddedAt : GoStr
  UpdatedAt : GoStr
  File : GoStr
  deriving DecidableEq, Repr

/-- The constant `MinConfidenceScore = 0.7`. -/
def minConfidenceScore : ℚ := 7 / 10

/-- The constant `MatchTypeTitleArtist = "title_artist"`. -/
def matchTypeTitleArtist : GoStr := "title_artist".toList

/-- `strings.ToLower(strings.TrimSpace(x))`, the normalisation applied
before every comparison in the selectors. -/
def lowTrim (s : GoStr) : GoStr := toLowerStr (trimSpace s)

/-- The literal a candidate's trimmed, lowercased artist is compared with
in the compilation-album exception. -/
def variousArtists : GoStr := "various artists".toList

/-- `calculateConfidence`: zero for a missing track or any match type
other than "title_artist"; otherwise the 0.7/0.3-weighted combination of
the best of seven title similarities (original, brackets removed,
featuring removed, normalized, "with" removed, suffixes removed, accents
normalized) and the better of two artist similarities (original,
featuring removed), each computed on lowercased but untrimmed strings. -/
def calculateConfidence (song : Song) (track : Option PlexTrack)
    (matchType : GoStr) : ℚ :=
  match track with
  | none => 0
  | some tr =>
    if matchType = matchTypeTitleArtist then
      let titleSim0 :=
        calculateStringSimilarity (toLowerStr song.Name) (toLowerStr tr.Title)
      let artistSim0 :=
        calculateStringSimilarity (toLowerStr song.Artist) (toLowerStr tr.Artist)
      let cleanTitleSim := calculateStringSimilarity
        (toLowerStr (removeBrackets song.Name)) (toLowerStr (removeBrackets tr.Title))
      let featTitleSim := calculateStringSimilarity
        (toLowerStr (removeFeaturing song.Name)) (toLowerStr (removeFeaturing tr.Title))
      let normTitleSim := calculateStringSimilarity
        (toLowerStr (normalizeTitle song.Name)) (toLowerStr (normalizeTitle tr.Title))
      let withTitleSim := calculateStringSimilarity
        (toLowerStr (removeWith song.Name)) (toLowerStr (removeWith tr.Title))
      let suffixTitleSim := calculateStringSimilarity
        (toLowerStr (RemoveCommonSuffixes song.Name))
        (toLowerStr (RemoveCommonSuffixes tr.Title))
      let accentTitleSim := calculateStringSimilarity
        (toLowerStr (normalizeAccents song.Name)) (toLowerStr (normalizeAccents tr.Title))
      let featArtistSim := calculateStringSimilarity
        (toLowerStr (removeFeaturing song.Artist)) (toLowerStr (removeFeaturing tr.Artist))
      let t1 := if cleanTitleSim > titleSim0 then cleanTitleSim else titleSim0
      let t2 := if featTitleSim > t1 then featTitleSim else t1
      let t3 := if normTitleSim > t2 then normTitleSim else t2
      let t4 := if withTitleSim > t3 then withTitleSim else t3
      let t5 := if suffixTitleSim > t4 then suffixTitleSim else t4
      let t6 := if accentTitleSim > t5 then accentTitleSim else t5
      let a1 := if featArtistSim > artistSim0 then featArtistSim else artistSim0
      t6 * (7 / 10) + a1 * (3 / 10)
    else 0

/-- The best-of-eight title similarity computed per candidate inside
`FindBestMatch` (original plus brackets-, featuring-, normalized-,
with-, suffix-, punctuation- and accent-transformed, each lowercased and
trimmed, sequential greater-than updates in source order). -/
def bestTitleSim (title trackTitle : GoStr) : ℚ :=
  let base := calculateStringSimilarity (lowTrim title) (lowTrim trackTitle)
  let clean := calculateStringSimilarity
    (lowTrim (removeBrackets title)) (lowTrim (removeBrackets trackTitle))
  let feat := calculateStringSimilarity
    (lowTrim (removeFeaturing title)) (lowTrim (removeFeaturing trackTitle))
  let norm := calculateStringSimilarity
    (lowTrim (normalizeTitle title)) (lowTrim (normalizeTitle trackTitle))
  let withv := calculateStringSimilarity
    (lowTrim (removeWith title)) (lowTrim (removeWith trackTitle))
  let suffix := calculateStringSimilarity
    (lowTrim (RemoveCommonSuffixes title)) (lowTrim (RemoveCommonSuffixes trackTitle))
  let punct := calculateStringSimilarity
    (lowTrim (normalizePunctuation title)) (lowTrim (normalizePunctuation trackTitle))
  let accent := calculateStringSimilarity
    (lowTrim (normalizeAccents title)) (lowTrim (normalizeAccents trackTitle))
  let t1 := if clean > base then clean else base
  let t2 := if feat > t1 then feat else t1
  let t3 := if norm > t2 then norm else t2
  let t4 := if withv > t3 then withv else t3
  let t5 := if suffix > t4 then suffix else t4
  let t6 := if punct > t5 then punct else t5
  if accent > t6 then accent else t6

/-- The best-of-four artist similarity computed per candidate inside
`FindBestMatch` (original, punctuation-normalized, accent-normalized,
featuring-removed, sequential greater-than updates in source order). -/
def bestArtistSim (artist trackArtist : GoStr) : ℚ :=
  let base := calculateStringSimilarity (lowTrim artist) (lowTrim trackArtist)
  let punct := calculateStringSimilarity
    (lowTrim (normalizePunctuation artist)) (lowTrim (normalizePunctuation trackArtist))
  let accent := calculateStringSimilarity
    (lowTrim (normalizeAccents artist)) (lowTrim (normalizeAccents trackArtist))
  let feat := calculateStringSimilarity
    (lowTrim (removeFeaturing artist)) (lowTrim (removeFeaturing trackArtist))
  let a1 := if punct > base then punct else base
  let a2 := if accent > a1 then accent else a1
  if feat > a2 then feat else a2

/-- The running state of the scored pass of both selectors. -/
structure ScanState where
  bestMatch : Option PlexTrack
  bestScore : ℚ
  bestArtistSimilarity : ℚ
  deriving DecidableEq, Repr

/-- The zero values of Go locals `bestMatch`, `bestScore`,
`bestArtistSimilarity`. -/
def initState : ScanState := ⟨none, 0, 0⟩

/-- The best-match update of `FindBestMatch`: replace on a strictly
higher score, or on an equal score with a strictly better artist
similarity. -/
def updateBest (track : PlexTrack) (score artistSim : ℚ)
    (st : ScanState) : ScanState :=
  if score > st.bestScore then ⟨some track, score, artistSim⟩
  else if score = st.bestScore ∧ artistSim > st.bestArtistSimilarity then
    ⟨some track, score, artistSim⟩
  else st

/-- The best-match update of `FindBestMatchWithNormalizedPunctuation`
(one combined condition in the source). -/
def updateBestNP (track : PlexTrack) (score artistSim : ℚ)
    (st : ScanState) : ScanState :=
  if score > st.bestScore ∨
     (score = st.bestScore ∧ artistSim > st.bestArtistSimilarity) then
    ⟨some track, score, artistSim⟩
  else st

/-- The scored loop of `FindBestMatch`.  A `Sum.inl` result is the
perfect-match early return; `Sum.inr` is the state after scanning the
whole list.  A candidate is skipped (both guard clauses) when its title
similarity is high and its artist similarity low, unless its trimmed,
lowercased artist is exactly "various artists". -/
def scanGo (title artist : GoStr) :
    List PlexTrack → ScanState → Sum PlexTrack ScanState
  | [], st => Sum.inr st
  | track :: rest, st =>
    let titleSim := bestTitleSim title track.Title
    let artistSim := bestArtistSim artist track.Artist
    let score := titleSim * (7 / 10) + artistSim * (3 / 10)
    if (titleSim > 9 / 10 ∧ artistSim < 3 / 10 ∧ lowTrim track.Artist ≠ variousArtists) ∨
       (titleSim > 7 / 10 ∧ artistSim < 2 / 10 ∧ lowTrim track.Artist ≠ variousArtists) then
      scanGo title artist rest st
    else
      let st' := updateBest track score artistSim st
      if titleSim = 1 ∧ artistSim = 1 then Sum.inl track
      else scanGo title artist rest st'

/-- The exact-match predicate of the first pass of `FindBestMatch`. -/
def exactPred (titleLower artistLower : GoStr) (t : PlexTrack) : Bool :=
  decide (lowTrim t.Title = titleLower ∧ lowTrim t.Artist = artistLower)

/-- `FindBestMatch`: empty-list check, exact-match pass (first winner in
list order), scored pass, and the final minimum-confidence threshold. -/
def findBestMatch (tracks : List PlexTrack) (title artist : GoStr) :
    Option PlexTrack :=
  if tracks.isEmpty then none
  else
    match tracks.find? (exactPred (lowTrim title) (lowTrim artist)) with
    | some t => some t
    | none =>
      match scanGo title artist tracks initState with
      | Sum.inl t => some t
      | Sum.inr st =>
        if st.bestScore ≥ minConfidenceScore then st.bestMatch else none

/-- The scored loop of `FindBestMatchWithNormalizedPunctuation`: single
similarity per field on the punctuation-normalized, lowercased, trimmed
strings, guard clauses without any "various artists" exception, combined
update condition, perfect-match early return. -/
def scanNP (titleLower artistLower : GoStr) :
    List PlexTrack → ScanState → Sum PlexTrack ScanState
  | [], st => Sum.inr st
  | track :: rest, st =>
    let trackTitle := lowTrim (normalizePunctuation track.Title)
    let trackArtist := lowTrim (normalizePunctuation track.Artist)
    let titleSim := calculateStringSimilarity titleLower trackTitle
    let artistSim := calculateStringSimilarity artistLower trackArtist
    let score := titleSim * (7 / 10) + artistSim * (3 / 10)
    if (titleSim > 9 / 10 ∧ artistSim < 3 / 10) ∨
       (titleSim > 7 / 10 ∧ artistSim < 2 / 10) then
      scanNP titleLower artistLower rest st
    else
      let st' := updateBestNP track score artistSim st
      if titleSim = 1 ∧ artistSim = 1 then Sum.inl track
      else scanNP titleLower artistLower rest st'

/-- The exact-match predicate of the first pass of
`FindBestMatchWithNormalizedPunctuation`. -/
def npExactPred (titleLower artistLower : GoStr) (t : PlexTrack) : Bool :=
  decide (lowTrim (normalizePunctuation t.Title) = titleLower ∧
    lowTrim (normalizePunctuation t.Artist) = artistLower)

/-- `FindBestMatchWithNormalizedPunctuation`: normalize punctuation of
target and candidates up front, then exact pass, scored pass and the same
0.7 threshold. -/
def findBestMatchWithNormalizedPunctuation (tracks : List PlexTrack)
    (title artist : GoStr) : Option PlexTrack :=
  if tracks.isEmpty then none
  else
    let titleLower := lowTrim (normalizePunctuation title)
    let artistLower := lowTrim (normalizePunctuation artist)
    match tracks.find? (npExactPred titleLower artistLower) with
    | some t => some t
    | none =>
      match scanNP titleLower artistLower tracks initState with
      | Sum.inl t => some t
      | Sum.inr st =>
        if st.bestScore ≥ minConfidenceScore then st.bestMatch else none

/-! ## Concrete data for witnesses and counterexamples -/

/-- A compilation-album candidate bearing the literal "Various Artists". -/
def trackVariousArtists : PlexTrack :=
  ⟨"1".toList, "Out of My Head".toList, "Various Artists".toList,
   [], 0, [], [], []⟩

/-- The same title under a similar-but-wrong artist. -/
def trackKylie : PlexTrack :=
  ⟨"2".toList, "Out of My Head".toList, "Kylie Minogue".toList,
   [], 0, [], [], []⟩

/-- The target title of the Various-Artists scenario. -/
def titleOutOfMyHead : GoStr := "Out Of My Head".toList

/-- The target artist of the Various-Artists scenario. -/
def artistLoote : GoStr := "Loote".toList

/-- A candidate whose title and artist are each a 7-byte substring of the
10-byte targets, so that both similarities are 7/10 and the combined score
is exactly the 0.7 threshold. -/
def trackSubstring : PlexTrack :=
  ⟨"4".toList, "abcdefg".toList, "qrstuvw".toList, [], 0, [], [], []⟩

/-- Ten-byte target title for the exact-threshold scenario. -/
def titleTen : GoStr := "abcdefghij".toList

/-- Ten-byte target artist for the exact-threshold scenario. -/
def artistTen : GoStr := "qrstuvwxyz".toList

/-! ## Shared helper lemmas -/

/-- The sequential strictly-greater update of the Go sources is the
binary maximum. -/
theorem if_gt_eq_max (a x : ℚ) : (if x > a then x else a) = max a x := by
  rcases lt_trichotomy a x with h | h | h
  · rw [if_pos h, max_eq_right h.le]
  · subst h; simp
  · rw [if_neg (not_lt.mpr h.le), max_eq_left h.le]

/-- `updateBest` preserves the invariant that a missing best match comes
with a zero best score. -/
theorem updateBest_inv (track : PlexTrack) (score asim : ℚ) (st : ScanState)
    (h : st.bestMatch = none → st.bestScore = 0) :
    (updateBest track score asim st).bestMatch = none →
    (updateBest track score asim st).bestScore = 0 := by
  unfold updateBest
  split_ifs <;> simp_all

/-- `updateBestNP` preserves the same invariant. -/
theorem updateBestNP_inv (track : PlexTrack) (score asim : ℚ) (st : ScanState)
    (h : st.bestMatch = none → st.bestScore = 0) :
    (updateBestNP track score asim st).bestMatch = none →
    (updateBestNP track score asim st).bestScore = 0 := by
  unfold updateBestNP
  split_ifs <;> simp_all

/-! ## C10 -/

/-- C10: `calculateConfidence` returns exactly 0 whenever the track is
missing or the match type is anything other than "title_artist" (in
particular for "isrc" and "none"). -/
theorem calculateConfidence_zero_unless_title_artist
    (song : Song) (track : Option PlexTrack) (matchType : GoStr)
    (h : track = none ∨ matchType ≠ matchTypeTitleArtist) :
    calculateConfidence song track matchType = 0 := by
  rcases h with h | h
  · subst h; rfl
  · cases track with
    | none => rfl
    | some tr => simp [calculateConfidence, h]

/-- Witness for C10: a present track queried with match type "isrc" gets
confidence 0. -/
theorem calculateConfidence_zero_unless_title_artist_witness :
    calculateConfidence
      ⟨[], "Out Of My Head".toList, "Loote".toList, [], 0, [], [], []⟩
      (some trackVariousArtists) "isrc".toList = 0 :=
  calculateConfidence_zero_unless_title_artist _ _ _ (Or.inr (by decide))

/-! ## C1 -/

/-- C1: if some candidate matches the lowercased, trimmed target title
and artist exactly, `FindBestMatch` returns the first such candidate in
list order, independently of any similarity scoring. -/
theorem findBestMatch_exact_first
    (tracks : List PlexTrack) (title artist : GoStr) (pre : List PlexTrack)
    (tr : PlexTrack) (post : List PlexTrack)
    (hsplit : tracks = pre ++ tr :: post)
    (ht : exactPred (lowTrim title) (lowTrim artist) tr = true)
    (hpre : ∀ u ∈ pre, exactPred (lowTrim title) (lowTrim artist) u = false) :
    findBestMatch tracks title artist = some tr := by
  subst hsplit
  have hfind : (pre ++ tr :: post).find?
      (exactPred (lowTrim title) (lowTrim artist)) = some tr := by
    induction pre with
    | nil => simp [List.find?_cons, ht]
    | cons u us ih =>
      rw [List.cons_append, List.find?_cons_of_neg]
      · exact ih (fun v hv => hpre v (List.mem_cons_of_mem u hv))
      · simp [hpre u (List.mem_cons_self u us)]
  have hne : (pre ++ tr :: post).isEmpty = false := by
    cases pre <;> rfl
  simp [findBestMatch, hne, hfind]

/-- Witness for C1: the exact artist match is returned even though the
Various-Artists candidate before it would also be eligible. -/
theorem findBestMatch_exact_first_witness :
    findBestMatch [trackVariousArtists, trackKylie] titleOutOfMyHead
      "Kylie Minogue".toList = some trackKylie :=
  findBestMatch_exact_first _ _ _ [trackVariousArtists] trackKylie []
    rfl (by decide) (by decide)

/-! ## C2 -/

/-- C2: the empty candidate list yields no match, and after a completed
scored scan `FindBestMatch` returns the tracked best candidate exactly
when the best combined score reaches the 0.7 threshold (a score of
exactly 0.7 is accepted; any smaller best score yields no match). -/
theorem findBestMatch_threshold :
    (∀ title artist, findBestMatch [] title artist = none) ∧
    ∀ (tracks : List PlexTrack) (title artist : GoStr) (stF : ScanState),
      tracks.find? (exactPred (lowTrim title) (lowTrim artist)) = none →
      scanGo title artist tracks initState = Sum.inr stF →
      (minConfidenceScore ≤ stF.bestScore →
        findBestMatch tracks title artist = stF.bestMatch) ∧
      (stF.bestScore < minConfidenceScore →
        findBestMatch tracks title artist = none) := by
  constructor
  · intro title artist; rfl
  · intro tracks title artist stF hfind hscan
    have hres : findBestMatch tracks title artist =
        if stF.bestScore ≥ minConfidenceScore then stF.bestMatch else none := by
      cases tracks with
      | nil =>
        have h0 : initState = stF := by
          simpa [scanGo] using hscan
        have h1 : stF.bestMatch = none := by rw [← h0]; rfl
        have h2 : stF.bestScore = 0 := by rw [← h0]; rfl
        rw [h1, h2]
        simp [findBestMatch]
      | cons a l =>
        simp [findBestMatch, hfind, hscan]
    constructor
    · intro h; rw [hres, if_pos h]
    · intro h; rw [hres, if_neg (not_le.mpr h)]

/-- Witness for C2: a candidate whose best combined score is exactly 7/10
is returned. -/
theorem findBestMatch_threshold_witness :
    findBestMatch [trackSubstring] titleTen artistTen = some trackSubstring :=
  (findBestMatch_threshold.2 [trackSubstring] titleTen artistTen
    ⟨some trackSubstring, 7 / 10, 7 / 10⟩ (by decide) (by decide)).1 (by decide)

/-! ## C9 -/

/-- C9: `FindBestMatch` is total — it returns nothing or one candidate on
every input — and the final threshold branch can only dereference a
recorded best match: whenever the completed scan's best score reaches the
threshold, the best-match pointer is non-nil (given the invariant,
satisfied by the zero initial state, that a missing best match comes with
a zero score). -/
theorem findBestMatch_total_safe :
    (∀ (tracks : List PlexTrack) (title artist : GoStr),
      findBestMatch tracks title artist = none ∨
      ∃ t, findBestMatch tracks title artist = some t) ∧
    ∀ (title artist : GoStr) (tracks : List PlexTrack) (st stF : ScanState),
      (st.bestMatch = none → st.bestScore = 0) →
      scanGo title artist tracks st = Sum.inr stF →
      minConfidenceScore ≤ stF.bestScore →
      ∃ t, stF.bestMatch = some t := by
  constructor
  · intro tracks title artist
    cases h : findBestMatch tracks title artist with
    | none => exact Or.inl rfl
    | some t => exact Or.inr ⟨t, rfl⟩
  · intro title artist tracks
    induction tracks with
    | nil =>
      intro st stF hinv hscan hge
      have h0 : st = stF := by simpa [scanGo] using hscan
      subst h0
      cases hm : st.bestMatch with
      | some t => exact ⟨t, rfl⟩
      | none =>
        rw [hinv hm] at hge
        exact absurd hge (by norm_num [minConfidenceScore])
    | cons a l ih =>
      intro st stF hinv hscan hge
      simp only [scanGo] at hscan
      split_ifs at hscan with hg hp
      all_goals first
        | exact ih st stF hinv hscan hge
        | cases hscan
        | exact ih _ stF (updateBest_inv _ _ _ _ hinv) hscan hge

/-- Witness for C9: the invariant applied to the completed
exact-threshold scan produces the recorded candidate. -/
theorem findBestMatch_total_safe_witness :
    ∃ t, (⟨some trackSubstring, 7 / 10, 7 / 10⟩ : ScanState).bestMatch = some t :=
  findBestMatch_total_safe.2 titleTen artistTen [trackSubstring] initState
    ⟨some trackSubstring, 7 / 10, 7 / 10⟩ (fun _ => rfl) (by decide) (by decide)

/-! ## C3 -/

/-- C3: a scanned candidate whose best title similarity exceeds 0.9 with
artist similarity below 0.3 (or exceeds 0.7 with artist similarity below
0.2) is skipped by the guard clauses — the scan state is unchanged —
whenever its trimmed, lowercased artist differs from "various artists";
and in the concrete compilation scenario the "Various Artists" candidate
is accepted while the same title under "Kylie Minogue" is rejected. -/
theorem findBestMatch_guard_various_artists :
    (∀ (title artist : GoStr) (track : PlexTrack) (rest : List PlexTrack)
        (st : ScanState),
      lowTrim track.Artist ≠ variousArtists →
      ((bestTitleSim title track.Title > 9 / 10 ∧
        bestArtistSim artist track.Artist < 3 / 10) ∨
       (bestTitleSim title track.Title > 7 / 10 ∧
        bestArtistSim artist track.Artist < 2 / 10)) →
      scanGo title artist (track :: rest) st = scanGo title artist rest st) ∧
    findBestMatch [trackVariousArtists] titleOutOfMyHead artistLoote =
      some trackVariousArtists ∧
    findBestMatch [trackKylie] titleOutOfMyHead artistLoote = none := by
  refine ⟨?_, by decide, by decide⟩
  intro title artist track rest st hva hg
  have hcond : (bestTitleSim title track.Title > 9 / 10 ∧
      bestArtistSim artist track.Artist < 3 / 10 ∧
      lowTrim track.Artist ≠ variousArtists) ∨
      (bestTitleSim title track.Title > 7 / 10 ∧
      bestArtistSim artist track.Artist < 2 / 10 ∧
      lowTrim track.Artist ≠ variousArtists) := by
    rcases hg with ⟨h1, h2⟩ | ⟨h1, h2⟩
    · exact Or.inl ⟨h1, h2, hva⟩
    · exact Or.inr ⟨h1, h2, hva⟩
  simp only [scanGo]
  rw [if_pos hcond]

/-- Witness for C3: the guard clause applied to the "Kylie Minogue"
candidate leaves the scan state untouched. -/
theorem findBestMatch_guard_various_artists_witness :
    scanGo titleOutOfMyHead artistLoote [trackKylie] initState =
      Sum.inr initState :=
  (findBestMatch_guard_various_artists.1 titleOutOfMyHead artistLoote
    trackKylie [] initState (by decide) (Or.inl (by decide))).trans rfl

/-! ## C5 -/

/-- Counterexample for C5: the word-overlap branch counts the words of
the first argument found among the words of the second, so repeated words
on one side break symmetry. -/
theorem calculateStringSimilarity_not_symm :
    calculateStringSimilarity "la la x".toList "la y z".toList ≠
    calculateStringSimilarity "la y z".toList "la la x".toList := by decide

/-- C5 (amended): `calculateStringSimilarity` is symmetric whenever the
strings are equal, one of them is empty, or one is a substring of the
other; beyond those branches the word-overlap heuristic is directional. -/
theorem calculateStringSimilarity_symm_cases (a b : GoStr)
    (h : a = b ∨ a = [] ∨ b = [] ∨ a <:+: b ∨ b <:+: a) :
    calculateStringSimilarity a b = calculateStringSimilarity b a := by
  by_cases hab : a = b
  · subst hab; rfl
  by_cases ha : a = []
  · subst ha
    have hb : b ≠ [] := fun hb => hab hb.symm
    simp [calculateStringSimilarity, hab, Ne.symm hab, hb]
  by_cases hb : b = []
  · subst hb
    simp [calculateStringSimilarity, hab, Ne.symm hab, ha]
  have hinf : a <:+: b ∨ b <:+: a := by
    rcases h with h' | h' | h' | h' | h'
    · exact absurd h' hab
    · exact absurd h' ha
    · exact absurd h' hb
    · exact Or.inl h'
    · exact Or.inr h'
  simp only [calculateStringSimilarity]
  rw [if_neg hab, if_neg (Ne.symm hab),
    if_neg (not_or.mpr ⟨ha, hb⟩), if_neg (not_or.mpr ⟨hb, ha⟩),
    if_pos (Or.symm hinf), if_pos hinf]
  split_ifs with h1 h2 h2
  all_goals first
    | rfl
    | exact absurd h1 (by omega)
    | (have he : golen a = golen b := by omega
       rw [he])

/-- Witness for C5 (amended): symmetry on a substring pair. -/
theorem calculateStringSimilarity_symm_cases_witness :
    calculateStringSimilarity "ab".toList "xaby".toList =
    calculateStringSimilarity "xaby".toList "ab".toList :=
  calculateStringSimilarity_symm_cases _ _
    (Or.inr (Or.inr (Or.inr (Or.inl (by decide)))))

/-! ## C6 -/

/-- Modelled from the claim's wording (C6): consumed word matching — each
word of the first list may consume at most one equal word of the second
list, the first available one, so it is never counted twice. -/
def countMatchingWordsConsume : List GoStr → List GoStr → Nat
  | [], _ => 0
  | w :: ws, ws2 =>
    if w ∈ ws2 then 1 + countMatchingWordsConsume ws (ws2.erase w)
    else countMatchingWordsConsume ws ws2

/-- The length-similarity term of the word branch, written from the spec
formula `1 - |len(a)-len(b)| / max(len(a),len(b))`. -/
def lengthSimilaritySpec (a b : GoStr) : ℚ :=
  1 - (goAbs ((golen a : ℤ) - (golen b : ℤ)) : ℚ) /
    (goMax (golen a) (golen b) : ℚ)

/-- The claim's word-overlap term under consumed matching. -/
def wordOverlapConsume (a b : GoStr) : ℚ :=
  (countMatchingWordsConsume (fields a) (fields b) : ℚ) /
    (goMax (fields a).length (fields b).length : ℚ)

/-- The word-overlap term as the code computes it: a word of `a` counts
whenever it occurs anywhere among the words of `b`; nothing is consumed,
so repeated words of `a` all match the same word of `b`. -/
def wordOverlapNoConsume (a b : GoStr) : ℚ :=
  (((fields a).filter (fun w => decide (w ∈ fields b))).length : ℚ) /
    (goMax (fields a).length (fields b).length : ℚ)

/-- The counting loop counts the words of the first list that occur in
the second. -/
theorem countMatchingWords_eq_filter (ws ws2 : List GoStr) :
    countMatchingWords ws ws2 =
      (ws.filter (fun w => decide (w ∈ ws2))).length := by
  induction ws with
  | nil => rfl
  | cons w ws ih =>
    by_cases h : w ∈ ws2 <;>
      simp [countMatchingWords, List.filter_cons, h, ih, Nat.add_comm]

/-- Counterexample for C6: on the word branch the inner loop consumes
nothing, so `"la la"` vs `"la z"` scores both copies of `"la"` against
the single `"la"` of the other side, and the returned value differs from
the claimed consumed-matching formula. -/
theorem calculateStringSimilarity_no_consumption_cex :
    ("la la".toList ≠ "la z".toList) ∧
    "la la".toList ≠ ([] : GoStr) ∧ "la z".toList ≠ ([] : GoStr) ∧
    ¬("la z".toList <:+: "la la".toList ∨ "la la".toList <:+: "la z".toList) ∧
    calculateStringSimilarity "la la".toList "la z".toList ≠
      (7 / 10) * wordOverlapConsume "la la".toList "la z".toList +
      (3 / 10) * lengthSimilaritySpec "la la".toList "la z".toList := by
  decide

/-- C6 (amended): on the word branch the similarity is
`0.7 * wordOverlap + 0.3 * lengthSimilarity` where a word of `a` matches
exactly when it equals any word of `b`, without consumption. -/
theorem calculateStringSimilarity_word_branch (a b : GoStr)
    (hne : a ≠ b) (ha : a ≠ []) (hb : b ≠ [])
    (hinf : ¬(b <:+: a ∨ a <:+: b))
    (hwa : fields a ≠ []) (hwb : fields b ≠ []) :
    calculateStringSimilarity a b =
      (7 / 10) * wordOverlapNoConsume a b +
      (3 / 10) * lengthSimilaritySpec a b := by
  simp only [calculateStringSimilarity]
  rw [if_neg hne, if_neg (not_or.mpr ⟨ha, hb⟩), if_neg hinf,
    if_neg (not_or.mpr ⟨hwa, hwb⟩)]
  rw [wordOverlapNoConsume, lengthSimilaritySpec, countMatchingWords_eq_filter]
  ring

/-- Witness for C6 (amended): the formula evaluated on the word branch. -/
theorem calculateStringSimilarity_word_branch_witness :
    calculateStringSimilarity "la la x".toList "la y z".toList =
      (7 / 10) * wordOverlapNoConsume "la la x".toList "la y z".toList +
      (3 / 10) * lengthSimilaritySpec "la la x".toList "la y z".toList :=
  calculateStringSimilarity_word_branch _ _ (by decide) (by decide) (by decide)
    (by decide) (by decide) (by decide)

/-! ## C7 -/

/-- The Spotify side of the Chloe scenario (multiplication sign in the
artist name). -/
def songDoIt : Song :=
  ⟨[], "Do It".toList, "Chloe × Halle".toList, [], 0, [], [], []⟩

/-- The Plex side of the Chloe scenario (ASCII letter x). -/
def trackDoIt : PlexTrack :=
  ⟨"5".toList, "Do It".toList, "Chloe x Halle".toList, [], 0, [], [], []⟩

/-- Modelled from the claim's wording (C7): confidence whose artist
similarity is the maximum of `stringSimilarity` over all four artist
variants — original, featuring-removed, punctuation-normalized and
accent-normalized — of both artist strings, with the usual best-of-seven
title similarity, combined as 0.7 title + 0.3 artist. -/
def confidenceTitleArtistFour (song : Song) (track : PlexTrack) : ℚ :=
  let t0 := calculateStringSimilarity (toLowerStr song.Name) (toLowerStr track.Title)
  let tClean := calculateStringSimilarity
    (toLowerStr (removeBrackets song.Name)) (toLowerStr (removeBrackets track.Title))
  let tFeat := calculateStringSimilarity
    (toLowerStr (removeFeaturing song.Name)) (toLowerStr (removeFeaturing track.Title))
  let tNorm := calculateStringSimilarity
    (toLowerStr (normalizeTitle song.Name)) (toLowerStr (normalizeTitle track.Title))
  let tWith := calculateStringSimilarity
    (toLowerStr (removeWith song.Name)) (toLowerStr (removeWith track.Title))
  let tSuffix := calculateStringSimilarity
    (toLowerStr (RemoveCommonSuffixes song.Name))
    (toLowerStr (RemoveCommonSuffixes track.Title))
  let tAccent := calculateStringSimilarity
    (toLowerStr (normalizeAccents song.Name)) (toLowerStr (normalizeAccents track.Title))
  let a0 := calculateStringSimilarity (toLowerStr song.Artist) (toLowerStr track.Artist)
  let aFeat := calculateStringSimilarity
    (toLowerStr (removeFeaturing song.Artist)) (toLowerStr (removeFeaturing track.Artist))
  let aPunct := calculateStringSimilarity
    (toLowerStr (normalizePunctuation song.Artist))
    (toLowerStr (normalizePunctuation track.Artist))
  let aAccent := calculateStringSimilarity
    (toLowerStr (normalizeAccents song.Artist)) (toLowerStr (normalizeAccents track.Artist))
  (7 / 10) * max (max (max (max (max (max t0 tClean) tFeat) tNorm) tWith) tSuffix) tAccent +
  (3 / 10) * max (max (max a0 aFeat) aPunct) aAccent

/-- The confidence `calculateConfidence` actually computes on a
"title_artist" match, written with binary maxima: the artist similarity
is the better of only two variants, original and featuring-removed. -/
def confidenceTitleArtistSpec (song : Song) (track : PlexTrack) : ℚ :=
  let t0 := calculateStringSimilarity (toLowerStr song.Name) (toLowerStr track.Title)
  let tClean := calculateStringSimilarity
    (toLowerStr (removeBrackets song.Name)) (toLowerStr (removeBrackets track.Title))
  let tFeat := calculateStringSimilarity
    (toLowerStr (removeFeaturing song.Name)) (toLowerStr (removeFeaturing track.Title))
  let tNorm := calculateStringSimilarity
    (toLowerStr (normalizeTitle song.Name)) (toLowerStr (normalizeTitle track.Title))
  let tWith := calculateStringSimilarity
    (toLowerStr (removeWith song.Name)) (toLowerStr (removeWith track.Title))
  let tSuffix := calculateStringSimilarity
    (toLowerStr (RemoveCommonSuffixes song.Name))
    (toLowerStr (RemoveCommonSuffixes track.Title))
  let tAccent := calculateStringSimilarity
    (toLowerStr (normalizeAccents song.Name)) (toLowerStr (normalizeAccents track.Title))
  let a0 := calculateStringSimilarity (toLowerStr song.Artist) (toLowerStr track.Artist)
  let aFeat := calculateStringSimilarity
    (toLowerStr (removeFeaturing song.Artist)) (toLowerStr (removeFeaturing track.Artist))
  (7 / 10) * max (max (max (max (max (max t0 tClean) tFeat) tNorm) tWith) tSuffix) tAccent +
  (3 / 10) * max a0 aFeat

/-- Counterexample for C7: with artists "Chloe × Halle" and
"Chloe x Halle", the punctuation-normalized artist variant would score 1,
but `calculateConfidence` never computes it, so the returned confidence
differs from the claimed four-variant formula. -/
theorem calculateConfidence_four_variant_cex :
    calculateConfidence songDoIt (some trackDoIt) matchTypeTitleArtist ≠
    confidenceTitleArtistFour songDoIt trackDoIt := by decide

/-- C7 (amended): on a "title_artist" match, `calculateConfidence`
returns 0.7 times the best of the seven title variants plus 0.3 times the
better of only two artist variants, original and featuring-removed — the
punctuation and accent artist variants are used by `FindBestMatch` but
not by the confidence function. -/
theorem calculateConfidence_title_artist_eq (song : Song) (track : PlexTrack) :
    calculateConfidence song (some track) matchTypeTitleArtist =
    confidenceTitleArtistSpec song track := by
  simp only [calculateConfidence, confidenceTitleArtistSpec, if_gt_eq_max,
    eq_self_iff_true, if_true]
  ring

/-! ## C8 -/

/-- Counterexample for C8: the punctuation variant's guards have no
"various artists" exception — the compilation candidate with perfect
title similarity and low artist similarity is rejected, so no match is
returned. -/
theorem findBestMatchNP_various_artists_cex :
    lowTrim trackVariousArtists.Artist = variousArtists ∧
    calculateStringSimilarity (lowTrim (normalizePunctuation titleOutOfMyHead))
      (lowTrim (normalizePunctuation trackVariousArtists.Title)) > 9 / 10 ∧
    calculateStringSimilarity (lowTrim (normalizePunctuation artistLoote))
      (lowTrim (normalizePunctuation trackVariousArtists.Artist)) < 3 / 10 ∧
    findBestMatchWithNormalizedPunctuation [trackVariousArtists]
      titleOutOfMyHead artistLoote = none := by decide

/-- C8 (amended): `FindBestMatchWithNormalizedPunctuation` keeps the
guard thresholds and the 0.7 minimum-confidence threshold of
`FindBestMatch`, but its guards reject unconditionally — with no
"various artists" exception — and it compares only the
punctuation-normalized strings, with no multi-variant expansion. -/
theorem findBestMatchNP_guards_and_threshold :
    (∀ (titleLower artistLower : GoStr) (track : PlexTrack)
        (rest : List PlexTrack) (st : ScanState),
      ((calculateStringSimilarity titleLower
          (lowTrim (normalizePunctuation track.Title)) > 9 / 10 ∧
        calculateStringSimilarity artistLower
          (lowTrim (normalizePunctuation track.Artist)) < 3 / 10) ∨
       (calculateStringSimilarity titleLower
          (lowTrim (normalizePunctuation track.Title)) > 7 / 10 ∧
        calculateStringSimilarity artistLower
          (lowTrim (normalizePunctuation track.Artist)) < 2 / 10)) →
      scanNP titleLower artistLower (track :: rest) st =
        scanNP titleLower artistLower rest st) ∧
    (∀ title artist,
      findBestMatchWithNormalizedPunctuation [] title artist = none) ∧
    ∀ (tracks : List PlexTrack) (title artist : GoStr) (stF : ScanState),
      tracks.find? (npExactPred (lowTrim (normalizePunctuation title))
        (lowTrim (normalizePunctuation artist))) = none →
      scanNP (lowTrim (normalizePunctuation title))
        (lowTrim (normalizePunctuation artist)) tracks initState = Sum.inr stF →
      (minConfidenceScore ≤ stF.bestScore →
        findBestMatchWithNormalizedPunctuation tracks title artist =
          stF.bestMatch) ∧
      (stF.bestScore < minConfidenceScore →
        findBestMatchWithNormalizedPunctuation tracks title artist = none) := by
  refine ⟨?_, fun title artist => rfl, ?_⟩
  · intro titleLower artistLower track rest st hg
    simp only [scanNP]
    rw [if_pos hg]
  · intro tracks title artist stF hfind hscan
    have hres : findBestMatchWithNormalizedPunctuation tracks title artist =
        if stF.bestScore ≥ minConfidenceScore then stF.bestMatch else none := by
      cases tracks with
      | nil =>
        have h0 : initState = stF := by simpa [scanNP] using hscan
        have h1 : stF.bestMatch = none := by rw [← h0]; rfl
        have h2 : stF.bestScore = 0 := by rw [← h0]; rfl
        rw [h1, h2]
        simp [findBestMatchWithNormalizedPunctuation]
      | cons a l =>
        simp [findBestMatchWithNormalizedPunctuation, hfind, hscan]
    constructor
    · intro h; rw [hres, if_pos h]
    · intro h; rw [hres, if_neg (not_le.mpr h)]

/-- Witness for C8 (amended): the variant's guard skips even the
"Various Artists" candidate, leaving the scan state untouched. -/
theorem findBestMatchNP_guards_and_threshold_witness :
    scanNP (lowTrim (normalizePunctuation titleOutOfMyHead))
      (lowTrim (normalizePunctuation artistLoote)) [trackVariousArtists]
      initState = Sum.inr initState :=
  (findBestMatchNP_guards_and_threshold.1 _ _ trackVariousArtists [] initState
    (Or.inl (by decide))).trans rfl

/-! ## C4 -/

/-- Counterexample for C4: four of the normalizers remove only one layer
of a stacked pattern per application, so a second application changes the
result again ("featuring"/"with" clauses, common suffixes), and
`normalizeTitle`'s whitespace collapsing can manufacture a new " - "
separator that only the second application rewrites. -/
theorem normalizer_idempotence_cex :
    removeFeaturing (removeFeaturing "a featuring b featuring c".toList) ≠
      removeFeaturing "a featuring b featuring c".toList ∧
    removeWith (removeWith "a with b with c".toList) ≠
      removeWith "a with b with c".toList ∧
    RemoveCommonSuffixes (RemoveCommonSuffixes "x - remix - remix".toList) ≠
      RemoveCommonSuffixes "x - remix - remix".toList ∧
    normalizeTitle (normalizeTitle "a\t-\tb".toList) ≠
      normalizeTitle "a\t-\tb".toList := by decide

/-- A single-character-replacement cascade is a character map. -/
theorem foldl_replaceChar_map (L : List (Char × Char)) (s : GoStr) :
    L.foldl (fun t p => replaceChar p.1 p.2 t) s =
      s.map (fun c => L.foldl (fun d p => if d = p.1 then p.2 else d) c) := by
  induction L generalizing s with
  | nil => simp
  | cons p L ih =>
    rw [List.foldl_cons, ih, replaceChar, List.map_map]
    rfl

/-- The composed character replacement of `normalizePunctuation`. -/
def punctChar (c : Char) : Char :=
  punctRepl.foldl (fun d p => if d = p.1 then p.2 else d) c

/-- A character hit by no replacement pair is left unchanged. -/
theorem foldl_step_id (L : List (Char × Char)) (c : Char)
    (h : ∀ p ∈ L, c ≠ p.1) :
    L.foldl (fun d p => if d = p.1 then p.2 else d) c = c := by
  induction L with
  | nil => rfl
  | cons p L ih =>
    rw [List.foldl_cons, if_neg (h p (List.mem_cons_self p L))]
    exact ih (fun q hq => h q (List.mem_cons_of_mem p hq))

/-- The punctuation character map is idempotent: its outputs (plain
hyphen, x, apostrophe, straight quote, or an unmapped character) are
never mapped again. -/
theorem punctChar_idem (c : Char) : punctChar (punctChar c) = punctChar c := by
  by_cases h1 : c = Char.ofNat 0x2010
  · subst h1; decide
  by_cases h2 : c = Char.ofNat 0x2014
  · subst h2; decide
  by_cases h3 : c = Char.ofNat 0x2015
  · subst h3; decide
  by_cases h4 : c = Char.ofNat 0xD7
  · subst h4; decide
  by_cases h5 : c = Char.ofNat 0x2019
  · subst h5; decide
  by_cases h6 : c = Char.ofNat 0x2018
  · subst h6; decide
  by_cases h7 : c = Char.ofNat 0x60
  · subst h7; decide
  by_cases h8 : c = Char.ofNat 0x2032
  · subst h8; decide
  by_cases h9 : c = Char.ofNat 0x201C
  · subst h9; decide
  by_cases h10 : c = Char.ofNat 0x201D
  · subst h10; decide
  have hid : punctChar c = c := by
    apply foldl_step_id
    intro p hp
    fin_cases hp <;> simp_all
  rw [hid, hid]

/-- `normalizePunctuation` equals the map of its composed character
replacement. -/
theorem normalizePunctuation_as_map (t : GoStr) :
    normalizePunctuation t = t.map punctChar :=
  foldl_replaceChar_map punctRepl t

/-- `normalizePunctuation` is idempotent. -/
theorem normalizePunctuation_idem (s : GoStr) :
    normalizePunctuation (normalizePunctuation s) = normalizePunctuation s := by
  rw [normalizePunctuation_as_map, normalizePunctuation_as_map]
  induction s with
  | nil => rfl
  | cons c cs ih =>
    simp only [List.map_cons]
    rw [punctChar_idem c, ih]

/-- A successful association-list lookup comes from a list entry. -/
theorem mem_of_lookup_some {k v : Char} :
    ∀ {L : List (Char × Char)}, L.lookup k = some v → (k, v) ∈ L := by
  intro L
  induction L with
  | nil => intro h; simp [List.lookup] at h
  | cons p L ih =>
    intro h
    obtain ⟨a, b⟩ := p
    rw [List.lookup] at h
    by_cases hk : (k == a) = true
    · simp only [hk] at h
      have hv : b = v := Option.some.inj h
      have ha : k = a := eq_of_beq hk
      subst hv; subst ha
      exact List.mem_cons_self _ _
    · have hk' : (k == a) = false := by simpa using hk
      simp only [hk'] at h
      exact List.mem_cons_of_mem _ (ih h)

/-- Every key of the accent table is outside ASCII. -/
theorem accentPairs_keys_high :
    accentPairs.all (fun p => decide (0x80 ≤ p.1.toNat)) = true := by decide

/-- Every value of the accent table is ASCII. -/
theorem accentPairs_vals_low :
    accentPairs.all (fun p => decide (p.2.toNat < 0x80)) = true := by decide

/-- The accent character fold is idempotent: it only ever produces ASCII
letters or unmapped characters, and the table maps no ASCII key. -/
theorem accentChar_idem (c : Char) : accentChar (accentChar c) = accentChar c := by
  unfold accentChar
  cases h : accentPairs.lookup c with
  | none => simp [h]
  | some v =>
    have hv : (c, v) ∈ accentPairs := mem_of_lookup_some h
    have hlow : v.toNat < 0x80 := by
      have hall := accentPairs_vals_low
      rw [List.all_eq_true] at hall
      simpa using hall (c, v) hv
    have hnone : accentPairs.lookup v = none := by
      cases h2 : accentPairs.lookup v with
      | none => rfl
      | some w =>
        have hm := mem_of_lookup_some h2
        have hhigh : 0x80 ≤ v.toNat := by
          have hall := accentPairs_keys_high
          rw [List.all_eq_true] at hall
          simpa using hall (v, w) hm
        omega
    simp [h, hnone]

/-- `normalizeAccents` is idempotent. -/
theorem normalizeAccents_idem (s : GoStr) :
    normalizeAccents (normalizeAccents s) = normalizeAccents s := by
  induction s with
  | nil => rfl
  | cons c cs ih =>
    simp only [normalizeAccents, List.map_cons] at ih ⊢
    rw [accentChar_idem c, ih]

/-- No opener is followed by a closer anywhere to its right — the
condition under which the span-removal regex finds no match. -/
def noSpan (op cl : Char) : GoStr → Prop
  | [] => True
  | c :: cs => (c = op → cl ∉ cs) ∧ noSpan op cl cs

/-- A string without the closer has no span. -/
theorem noSpan_of_not_mem (op cl : Char) (s : GoStr) (h : cl ∉ s) :
    noSpan op cl s := by
  induction s with
  | nil => trivial
  | cons c cs ih =>
    rw [List.mem_cons, not_or] at h
    exact ⟨fun _ => h.2, ih h.2⟩

/-- `noSpan` descends to sublists. -/
theorem noSpan_sublist (op cl : Char) {s t : GoStr} (hsub : List.Sublist t s)
    (h : noSpan op cl s) : noSpan op cl t := by
  induction hsub with
  | slnil => trivial
  | cons a hsub ih => exact ih h.2
  | cons₂ a hsub ih =>
    exact ⟨fun hc hm => h.1 hc (hsub.subset hm), ih h.2⟩

/-- Span removal only deletes characters. -/
theorem removeSpanAux_sublist (op cl : Char) :
    ∀ (s : GoStr) (b : Bool), List.Sublist (removeSpanAux op cl b s) s := by
  intro s
  induction s with
  | nil => intro b; cases b <;> exact List.Sublist.refl _
  | cons c cs ih =>
    intro b
    cases b with
    | false =>
      simp only [removeSpanAux]
      split_ifs with hc hm
      · exact (ih true).trans (List.sublist_cons_self c cs)
      · exact List.Sublist.refl _
      · exact (ih false).cons₂ c
    | true =>
      simp only [removeSpanAux]
      split_ifs with hc
      · exact (ih false).trans (List.sublist_cons_self c cs)
      · exact (ih true).trans (List.sublist_cons_self c cs)

/-- The output of span removal has no span left. -/
theorem removeSpanAux_noSpan (op cl : Char) :
    ∀ (s : GoStr) (b : Bool), noSpan op cl (removeSpanAux op cl b s) := by
  intro s
  induction s with
  | nil => intro b; cases b <;> trivial
  | cons c cs ih =>
    intro b
    cases b with
    | false =>
      simp only [removeSpanAux]
      split_ifs with hc hm
      · exact ih true
      · exact ⟨fun _ => hm, noSpan_of_not_mem op cl cs hm⟩
      · exact ⟨fun h => absurd h hc, ih false⟩
    | true =>
      simp only [removeSpanAux]
      split_ifs with hc
      · exact ih false
      · exact ih true

/-- Span removal is the identity on spanless strings. -/
theorem removeSpanAux_id (op cl : Char) :
    ∀ (s : GoStr), noSpan op cl s → removeSpanAux op cl false s = s := by
  intro s
  induction s with
  | nil => intro _; rfl
  | cons c cs ih =>
    intro h
    simp only [removeSpanAux]
    by_cases hc : c = op
    · rw [if_pos hc, if_neg (h.1 hc)]
    · rw [if_neg hc, ih h.2]

/-- Collapse step: a whitespace head in mode `false` emits one blank and
switches to run mode. -/
theorem collapseAux_cons_space (d : Char) (ds : GoStr) (hd : isRegexSpace d) :
    collapseAux false (d :: ds) = ' ' :: collapseAux true ds := by
  simp [collapseAux, hd]

/-- Collapse step: a whitespace head inside a run is dropped. -/
theorem collapseAux_cons_space_true (d : Char) (ds : GoStr)
    (hd : isRegexSpace d) :
    collapseAux true (d :: ds) = collapseAux true ds := by
  simp [collapseAux, hd]

/-- Collapse step: a non-whitespace head is kept and ends any run. -/
theorem collapseAux_cons_nonspace (d : Char) (ds : GoStr) (b : Bool)
    (hd : ¬ isRegexSpace d) :
    collapseAux b (d :: ds) = d :: collapseAux false ds := by
  cases b <;> simp [collapseAux, hd]

/-- Characters of a collapsed string come from the input or are the
blank. -/
theorem mem_collapseAux {x : Char} :
    ∀ (s : GoStr) (b : Bool), x ∈ collapseAux b s → x ∈ s ∨ x = ' ' := by
  intro s
  induction s with
  | nil => intro b h; cases b <;> simp [collapseAux] at h
  | cons c cs ih =>
    intro b h
    simp only [collapseAux] at h
    split_ifs at h with hsp hb
    · rcases ih true h with h' | h'
      · exact Or.inl (List.mem_cons_of_mem c h')
      · exact Or.inr h'
    · rcases List.mem_cons.mp h with h' | h'
      · exact Or.inr h'
      · rcases ih true h' with h'' | h''
        · exact Or.inl (List.mem_cons_of_mem c h'')
        · exact Or.inr h''
    · rcases List.mem_cons.mp h with h' | h'
      · exact Or.inl (h' ▸ List.mem_cons_self c cs)
      · rcases ih false h' with h'' | h''
        · exact Or.inl (List.mem_cons_of_mem c h'')
        · exact Or.inr h''

/-- Collapsing whitespace preserves spanlessness (bracket characters are
not whitespace). -/
theorem collapseAux_noSpan (op cl : Char) (hop : op ≠ ' ') (hcl : cl ≠ ' ') :
    ∀ (s : GoStr) (b : Bool), noSpan op cl s → noSpan op cl (collapseAux b s) := by
  intro s
  induction s with
  | nil => intro b _; cases b <;> trivial
  | cons c cs ih =>
    intro b h
    simp only [collapseAux]
    split_ifs with hsp hb
    · exact ih true h.2
    · refine ⟨fun h' => absurd h'.symm hop, ih true h.2⟩
    · refine ⟨fun hc hm => ?_, ih false h.2⟩
      rcases mem_collapseAux cs false hm with h' | h'
      · exact h.1 hc h'
      · exact absurd h' hcl

/-- Trimming only deletes characters. -/
theorem trimSpace_sublist (s : GoStr) : List.Sublist (trimSpace s) s := by
  unfold trimSpace
  have h1 : List.Sublist (s.dropWhile isUniSpace) s := List.dropWhile_sublist _
  have h2 : List.Sublist ((s.dropWhile isUniSpace).reverse.dropWhile isUniSpace)
      (s.dropWhile isUniSpace).reverse := List.dropWhile_sublist _
  have h3 := h2.reverse
  rw [List.reverse_reverse] at h3
  exact h3.trans h1

/-- The head surviving `dropWhile` fails the predicate. -/
theorem dropWhile_head_not (p : Char → Bool) :
    ∀ (l : GoStr) (c : Char), (l.dropWhile p).head? = some c → ¬ p c := by
  intro l
  induction l with
  | nil => intro c h; simp [List.dropWhile] at h
  | cons a l ih =>
    intro c h
    by_cases ha : p a
    · rw [List.dropWhile_cons_of_pos ha] at h
      exact ih c h
    · rw [List.dropWhile_cons_of_neg ha] at h
      have : c = a := by simpa using h.symm
      subst this
      exact ha

/-- A nonempty prefix determines the head. -/
theorem isPrefix_head_eq {u v : GoStr} (h : u <+: v) {c : Char}
    (hc : u.head? = some c) : v.head? = some c := by
  obtain ⟨t, rfl⟩ := h
  cases u with
  | nil => simp at hc
  | cons a w => simpa using hc

/-- The head of a trimmed string is not whitespace. -/
theorem trimSpace_head (s : GoStr) (c : Char)
    (h : (trimSpace s).head? = some c) : ¬ isUniSpace c := by
  have hsuf : (s.dropWhile isUniSpace).reverse.dropWhile isUniSpace <:+
      (s.dropWhile isUniSpace).reverse := List.dropWhile_suffix _
  have hpre : trimSpace s <+: s.dropWhile isUniSpace := by
    have := List.reverse_prefix.mpr hsuf
    rwa [List.reverse_reverse] at this
  exact dropWhile_head_not _ _ _ (isPrefix_head_eq hpre h)

/-- The last character of a trimmed string is not whitespace. -/
theorem trimSpace_getLast (s : GoStr) (c : Char)
    (h : (trimSpace s).getLast? = some c) : ¬ isUniSpace c := by
  unfold trimSpace at h
  rw [List.getLast?_reverse] at h
  exact dropWhile_head_not _ _ _ h

/-- Regex whitespace is Unicode whitespace. -/
theorem regexSpace_isUniSpace {c : Char} (h : isRegexSpace c) :
    isUniSpace c := by
  simp only [isRegexSpace, decide_eq_true_eq] at h
  rcases h with h | h | h | h | h <;> subst h <;> decide

/-- A mode-`true` collapse never starts with whitespace. -/
theorem collapseAux_true_head :
    ∀ (s : GoStr) (c : Char),
      (collapseAux true s).head? = some c → ¬ isRegexSpace c := by
  intro s
  induction s with
  | nil => intro c h; simp [collapseAux] at h
  | cons d ds ih =>
    intro c h
    by_cases hsp : isRegexSpace d
    · simp only [collapseAux, hsp, if_true, ite_true] at h
      exact ih c h
    · simp only [collapseAux, hsp, if_false, ite_false, Bool.false_eq_true,
        List.head?_cons] at h
      cases h
      exact hsp

/-- Every whitespace character of a collapsed string is the blank. -/
theorem collapseAux_blanks :
    ∀ (s : GoStr) (b : Bool) (c : Char),
      c ∈ collapseAux b s → isRegexSpace c → c = ' ' := by
  intro s
  induction s with
  | nil => intro b c hc _; cases b <;> simp [collapseAux] at hc
  | cons d ds ih =>
    intro b c hc hsp
    simp only [collapseAux] at hc
    split_ifs at hc with hd hb
    · exact ih true c hc hsp
    · rcases List.mem_cons.mp hc with h' | h'
      · exact h'
      · exact ih true c h' hsp
    · rcases List.mem_cons.mp hc with h' | h'
      · exact absurd (h' ▸ hsp) hd
      · exact ih false c h' hsp

/-- A collapsed string has no two adjacent whitespace characters. -/
theorem collapseAux_chain :
    ∀ (s : GoStr) (b : Bool),
      List.Chain' (fun a b => ¬(isRegexSpace a ∧ isRegexSpace b))
        (collapseAux b s) := by
  intro s
  induction s with
  | nil => intro b; cases b <;> simp [collapseAux]
  | cons d ds ih =>
    intro b
    by_cases hd : isRegexSpace d
    · cases b with
      | true =>
        rw [collapseAux_cons_space_true d ds hd]
        exact ih true
      | false =>
        rw [collapseAux_cons_space d ds hd, List.chain'_cons']
        refine ⟨fun y hy => ?_, ih true⟩
        have := collapseAux_true_head ds y hy
        exact fun hcon => this hcon.2
    · rw [collapseAux_cons_nonspace d ds b hd, List.chain'_cons']
      exact ⟨fun y _ => fun hcon => hd hcon.1, ih false⟩

/-- Collapsing is the identity on already-collapsed strings. -/
theorem collapseWS_of_canonical :
    ∀ (s : GoStr),
      List.Chain' (fun a b => ¬(isRegexSpace a ∧ isRegexSpace b)) s →
      (∀ c ∈ s, isRegexSpace c → c = ' ') → collapseWS s = s := by
  intro s
  induction s with
  | nil => intro _ _; rfl
  | cons d ds ih =>
    intro hch hbl
    by_cases hd : isRegexSpace d
    · have hd' : d = ' ' := hbl d (List.mem_cons_self d ds) hd
      have htail : collapseAux true ds = ds := by
        have h1 : collapseAux true ds = collapseAux false ds := by
          cases ds with
          | nil => rfl
          | cons e es =>
            have hrel : ¬(isRegexSpace d ∧ isRegexSpace e) :=
              (List.chain'_cons.mp hch).1
            have he : ¬ isRegexSpace e := fun h => hrel ⟨hd, h⟩
            simp [collapseAux, he]
        rw [h1]
        exact ih hch.tail (fun c hc hsp => hbl c (List.mem_cons_of_mem d hc) hsp)
      simp only [collapseWS, collapseAux, hd, if_true, ite_true,
        Bool.false_eq_true, if_false, ite_false]
      rw [htail, hd']
    · simp only [collapseWS, collapseAux, hd, if_false, ite_false,
        Bool.false_eq_true]
      rw [show collapseAux false ds = collapseWS ds from rfl,
        ih hch.tail (fun c hc hsp => hbl c (List.mem_cons_of_mem d hc) hsp)]

/-- A string with a non-whitespace character collapses to a nonempty
string. -/
theorem collapseAux_ne_nil :
    ∀ (s : GoStr) (b : Bool), (∃ c ∈ s, ¬ isRegexSpace c) →
      collapseAux b s ≠ [] := by
  intro s
  induction s with
  | nil =>
    rintro b ⟨c, hc, _⟩
    simp at hc
  | cons d ds ih =>
    rintro b ⟨c, hc, hcs⟩
    by_cases hd : isRegexSpace d
    · have hcds : c ∈ ds := by
        rcases List.mem_cons.mp hc with h | h
        · exact absurd (h ▸ hd) hcs
        · exact h
      cases b with
      | true =>
        simp only [collapseAux, hd, if_true, ite_true]
        exact ih true ⟨c, hcds, hcs⟩
      | false =>
        simp [collapseAux, hd]
    · cases b <;> simp [collapseAux, hd]

/-- Dropping the head of a list with a nonempty tail keeps the last
element. -/
theorem getLast?_cons_of_ne_nil {a : Char} {l : GoStr} (h : l ≠ []) :
    (a :: l).getLast? = l.getLast? := by
  cases l with
  | nil => exact absurd rfl h
  | cons b m => exact List.getLast?_cons_cons

/-- Collapsing preserves a non-whitespace last character. -/
theorem collapseAux_getLast :
    ∀ (s : GoStr) (b : Bool),
      (∀ c, s.getLast? = some c → ¬ isUniSpace c) →
      ∀ c, (collapseAux b s).getLast? = some c → ¬ isUniSpace c := by
  intro s
  induction s with
  | nil => intro b _ c hc; cases b <;> simp [collapseAux] at hc
  | cons d ds ih =>
    intro b hl c hc
    cases ds with
    | nil =>
      have hd : ¬ isUniSpace d := hl d rfl
      have hdn : ¬ isRegexSpace d := fun h => hd (regexSpace_isUniSpace h)
      rw [collapseAux_cons_nonspace d [] b hdn] at hc
      have hdc : d = c := by simpa [collapseAux] using hc
      exact hdc ▸ hd
    | cons e es =>
      have hl' : ∀ c, (e :: es).getLast? = some c → ¬ isUniSpace c := by
        intro c' hc'
        exact hl c' (by rw [List.getLast?_cons_cons]; exact hc')
      have hwitness : ∃ x ∈ e :: es, ¬ isRegexSpace x := by
        refine ⟨(e :: es).getLast (by simp), List.getLast_mem _, fun hr => ?_⟩
        exact hl' _ (List.getLast?_eq_getLast _ (by simp))
          (regexSpace_isUniSpace hr)
      by_cases hd : isRegexSpace d
      · cases b with
        | true =>
          rw [collapseAux_cons_space_true d (e :: es) hd] at hc
          exact ih true hl' c hc
        | false =>
          rw [collapseAux_cons_space d (e :: es) hd,
            getLast?_cons_of_ne_nil (collapseAux_ne_nil _ true hwitness)] at hc
          exact ih true hl' c hc
      · rw [collapseAux_cons_nonspace d (e :: es) b hd,
          getLast?_cons_of_ne_nil (collapseAux_ne_nil _ false hwitness)] at hc
        exact ih false hl' c hc

/-- Collapsing preserves a non-whitespace head. -/
theorem collapseWS_head (s : GoStr)
    (h : ∀ c, s.head? = some c → ¬ isUniSpace c) :
    ∀ c, (collapseWS s).head? = some c → ¬ isUniSpace c := by
  cases s with
  | nil => intro c hc; simp [collapseWS, collapseAux] at hc
  | cons d ds =>
    have hd : ¬ isUniSpace d := h d rfl
    have hdn : ¬ isRegexSpace d := fun h' => hd (regexSpace_isUniSpace h')
    intro c hc
    simp only [collapseWS, collapseAux, hdn, if_false, ite_false,
      Bool.false_eq_true, List.head?_cons] at hc
    cases hc
    exact hd

/-- Trimming is the identity when both ends are already clean. -/
theorem trimSpace_eq_self (y : GoStr)
    (h1 : ∀ c, y.head? = some c → ¬ isUniSpace c)
    (h2 : ∀ c, y.getLast? = some c → ¬ isUniSpace c) : trimSpace y = y := by
  unfold trimSpace
  have hd : y.dropWhile isUniSpace = y := by
    cases y with
    | nil => rfl
    | cons a l =>
      rw [List.dropWhile_cons_of_neg]
      exact h1 a rfl
  rw [hd]
  have hrev : y.reverse.dropWhile isUniSpace = y.reverse := by
    cases hy : y.reverse with
    | nil => rfl
    | cons a l =>
      rw [List.dropWhile_cons_of_neg]
      have : y.getLast? = some a := by
        rw [← List.head?_reverse, hy]
        rfl
      exact h2 a this
  rw [hrev, List.reverse_reverse]

/-- Trim-then-collapse is idempotent. -/
theorem trim_collapse_idem (x : GoStr) :
    trimSpace (collapseWS (trimSpace x)) = collapseWS (trimSpace x) ∧
    collapseWS (collapseWS (trimSpace x)) = collapseWS (trimSpace x) := by
  constructor
  · apply trimSpace_eq_self
    · exact collapseWS_head _ (trimSpace_head x)
    · exact collapseAux_getLast (trimSpace x) false (trimSpace_getLast x)
  · exact collapseWS_of_canonical _ (collapseAux_chain _ false)
      (collapseAux_blanks _ false)

/-- `removeBrackets` is idempotent: its output contains no matchable
bracket span of any family, is trimmed, and is whitespace-collapsed, so
every pass of a second application is the identity. -/
theorem removeBrackets_idem (s : GoStr) :
    removeBrackets (removeBrackets s) = removeBrackets s := by
  have hP : noSpan '(' ')' (removeBrackets s) := by
    unfold removeBrackets removeSpans collapseWS
    apply collapseAux_noSpan _ _ (by decide) (by decide)
    apply noSpan_sublist _ _ (trimSpace_sublist _)
    apply noSpan_sublist _ _ (removeSpanAux_sublist _ _ _ _)
    apply noSpan_sublist _ _ (removeSpanAux_sublist _ _ _ _)
    exact removeSpanAux_noSpan '(' ')' s false
  have hS : noSpan '[' ']' (removeBrackets s) := by
    unfold removeBrackets removeSpans collapseWS
    apply collapseAux_noSpan _ _ (by decide) (by decide)
    apply noSpan_sublist _ _ (trimSpace_sublist _)
    apply noSpan_sublist _ _ (removeSpanAux_sublist _ _ _ _)
    exact removeSpanAux_noSpan '[' ']' _ false
  have hC : noSpan (Char.ofNat 0x7B) (Char.ofNat 0x7D) (removeBrackets s) := by
    unfold removeBrackets removeSpans collapseWS
    apply collapseAux_noSpan _ _ (by decide) (by decide)
    apply noSpan_sublist _ _ (trimSpace_sublist _)
    exact removeSpanAux_noSpan _ _ _ false
  show collapseWS (trimSpace
    (removeSpans (Char.ofNat 0x7B) (Char.ofNat 0x7D)
      (removeSpans '[' ']' (removeSpans '(' ')' (removeBrackets s))))) =
    removeBrackets s
  rw [show removeSpans '(' ')' (removeBrackets s) = removeBrackets s from
      removeSpanAux_id _ _ _ hP,
    show removeSpans '[' ']' (removeBrackets s) = removeBrackets s from
      removeSpanAux_id _ _ _ hS,
    show removeSpans (Char.ofNat 0x7B) (Char.ofNat 0x7D) (removeBrackets s) =
      removeBrackets s from removeSpanAux_id _ _ _ hC]
  show collapseWS (trimSpace (collapseWS (trimSpace
    (removeSpans (Char.ofNat 0x7B) (Char.ofNat 0x7D)
      (removeSpans '[' ']' (removeSpans '(' ')' s)))))) = removeBrackets s
  rw [(trim_collapse_idem _).1, (trim_collapse_idem _).2]
  rfl

/-- C4 (amended): exactly three of the normalizers are idempotent on
every input — `removeBrackets`, `normalizePunctuation` and
`normalizeAccents`; `removeFeaturing`, `removeWith`,
`removeCommonSuffixes` and `normalizeTitle` are not. -/
theorem normalizer_idempotent :
    (∀ s : GoStr, removeBrackets (removeBrackets s) = removeBrackets s) ∧
    (∀ s : GoStr,
      normalizePunctuation (normalizePunctuation s) = normalizePunctuation s) ∧
    (∀ s : GoStr, normalizeAccents (normalizeAccents s) = normalizeAccents s) :=
  ⟨removeBrackets_idem, normalizePunctuation_idem, normalizeAccents_idem⟩

end Plexify
